import Mathlib

/-!
A shallow embedding of the ACL management core of this repository:
the CLI token-update policy reconciler (package tokenupdate), and the
HTTP ACL endpoint handlers (agent/acl_endpoint.go): the disabled-ACL
guard, bootstrap error classification, legacy-rule translation of a
token, and URL/payload identifier normalization for token and policy
writes. External collaborators (the store/RPC layer, the legacy-rule
translator) are passed in as explicit inputs.
-/

namespace ConsulACL

/-- api.ACLTokenPolicyLink: a weak reference from a token to a policy,
by ID or by Name. In Go both fields are strings with zero value "". -/
structure ACLTokenPolicyLink where
  id : String
  name : String
  deriving Repr, DecidableEq

/-- The fields of api.ACLToken that the embedded operations touch. -/
structure ACLToken where
  accessorID : String
  secretID : String
  description : String
  policies : List ACLTokenPolicyLink
  deriving Repr, DecidableEq

/-- True when some link in the list carries the given Name
(the inner loop `for _, link := range token.Policies ... link.Name == policyName`
of the merge branch of tokenupdate Run). -/
def hasName (links : List ACLTokenPolicyLink) (n : String) : Bool :=
  links.any (fun l => l.name == n)

/-- True when some link in the list carries the given ID
(the inner loop `... link.ID == policyID` of the merge branch). -/
def hasID (links : List ACLTokenPolicyLink) (i : String) : Bool :=
  links.any (fun l => l.id == i)

/-- The name loop of the merge branch of tokenupdate Run: for each
requested policy name, append a Name-link unless a link with that Name
is already present in the accumulated list. An appended Name-link has
ID left at the Go zero value "". -/
def mergeNames (links : List ACLTokenPolicyLink) (names : List String) :
    List ACLTokenPolicyLink :=
  names.foldl
    (fun acc n => if hasName acc n then acc else acc ++ [⟨"", n⟩]) links

/-- The ID loop of the merge branch of tokenupdate Run: for each
requested (already resolved) policy ID, append an ID-link unless a link
with that ID is already present in the accumulated list. An appended
ID-link has Name left at the Go zero value "". -/
def mergeIDs (links : List ACLTokenPolicyLink) (ids : List String) :
    List ACLTokenPolicyLink :=
  ids.foldl
    (fun acc i => if hasID acc i then acc else acc ++ [⟨i, ""⟩]) links

/-- The whole merge branch (`if c.mergePolicies`) of tokenupdate Run:
the name loop runs first, then the ID loop, both mutating
token.Policies in place. -/
def mergeReconcile (links : List ACLTokenPolicyLink)
    (names ids : List String) : List ACLTokenPolicyLink :=
  mergeIDs (mergeNames links names) ids

/-- The replace branch (`else`) of tokenupdate Run: token.Policies is
set to nil, then a Name-link is appended for every requested name and
an ID-link for every requested (resolved) ID, in caller order. The
prior links are discarded. -/
def replaceReconcile (_links : List ACLTokenPolicyLink)
    (names ids : List String) : List ACLTokenPolicyLink :=
  ids.foldl (fun acc i => acc ++ [⟨i, ""⟩])
    (names.foldl (fun acc n => acc ++ [⟨"", n⟩]) [])

/-- tokenupdate Run, lines 79-134: after the token is read back, its
Description is assigned from the -description flag value, and its
Policies are recomputed by the merge or the replace branch according to
the -merge-policies flag. -/
def updateToken (token : ACLToken) (description : String)
    (mergePolicies : Bool) (names ids : List String) : ACLToken :=
  let token := { token with description := description }
  if mergePolicies then
    { token with policies := mergeReconcile token.policies names ids }
  else
    { token with policies := replaceReconcile token.policies names ids }

/-- The default value of the -description flag registered in
tokenupdate init is the empty string. -/
def defaultDescription : String := ""

/-- The status code and body written directly on the http.ResponseWriter
by a handler that short-circuits. -/
structure HTTPResponse where
  status : Nat
  body : String
  deriving Repr, DecidableEq

/-- http.StatusUnauthorized. -/
def statusUnauthorized : Nat := 401

/-- http.StatusForbidden. -/
def statusForbidden : Nat := 403

/-- checkACLDisabled (acl_endpoint.go lines 22-30): when ACLs are enabled
the handler continues (none); otherwise the guard writes
http.StatusUnauthorized with body "ACL support disabled" and the handler
returns at once, making no RPC (some response). -/
def checkACLDisabled (aclsEnabled : Bool) : Option HTTPResponse :=
  if aclsEnabled then none
  else some ⟨statusUnauthorized, "ACL support disabled"⟩

/-- pat occurs contiguously inside the character list. -/
def charsContain (pat : List Char) : List Char → Bool
  | [] => pat.isEmpty
  | c :: cs => pat.isPrefixOf (c :: cs) || charsContain pat cs

/-- strings.Contains(s, pat): pat occurs contiguously inside s, by a
case-sensitive byte-wise comparison. -/
def strContains (s pat : String) : Bool :=
  charsContain pat.toList s.toList

/-- Modelled from the spec: acl.PermissionDeniedError (package acl of this
repository, not under src/) renders a one-line permission-denied message
naming its cause. -/
def permissionDeniedMsg (cause : String) : String :=
  "Permission denied: " ++ cause

/-- The outcome of the ACLBootstrap handler, acl_endpoint.go lines 34-56.
Only operationalErr propagates a Go error to the caller; disabled and
forbidden write their response directly and return nil, nil. -/
inductive BootstrapResult where
  | disabled (resp : HTTPResponse)
  | forbidden (resp : HTTPResponse)
  | operationalErr (err : String)
  | success (id : String) (token : ACLToken)
  deriving Repr, DecidableEq

/-- ACLBootstrap (acl_endpoint.go lines 34-56): the disabled guard runs
first; then the ACL.Bootstrap RPC outcome (passed in as storeResult) is
classified: an error whose text contains the already-bootstrapped marker
(structs.ACLBootstrapNotAllowedErr, kept abstract) is written as a 403
permission-denied response and no error propagates; any other error is
returned unchanged; success wraps the token with ID = SecretID. -/
def aclBootstrap (aclsEnabled : Bool) (marker : String)
    (storeResult : Except String ACLToken) : BootstrapResult :=
  match checkACLDisabled aclsEnabled with
  | some resp => .disabled resp
  | none =>
      match storeResult with
      | .error err =>
          if strContains err marker then
            .forbidden ⟨statusForbidden, permissionDeniedMsg err⟩
          else .operationalErr err
      | .ok tok => .success tok.secretID tok

/-- The fields of structs.ACLPolicy read by the write normalization. -/
structure ACLPolicy where
  id : String
  name : String
  deriving Repr, DecidableEq

/-- structs.ACLPolicyIDType: the addressing mode selected by the idType
query parameter (structs.ACLPolicyID or structs.ACLPolicyName). -/
inductive ACLPolicyIDType where
  | id
  | name
  deriving Repr, DecidableEq

/-- The identifier-consistency step of ACLPolicyWrite (acl_endpoint.go
lines 272-286). Addressed by ID: a nonempty URL ID and a nonempty payload
ID that differ is a BadRequest; an empty payload ID adopts the URL ID.
Addressed by Name: a nonempty URL name and a nonempty payload Name that
differ is a BadRequest, but the adoption branch is the literal source
statement args.Policy.Name = "", which assigns the empty string rather
than the URL name. -/
def aclPolicyWriteNormalize (policyID : String) (idType : ACLPolicyIDType)
    (policy : ACLPolicy) : Except String ACLPolicy :=
  match idType with
  | .id =>
      if policyID ≠ "" ∧ policy.id ≠ "" ∧ policy.id ≠ policyID then
        .error "Policy ID in URL and payload do not match"
      else if policy.id = "" then .ok { policy with id := policyID }
      else .ok policy
  | .name =>
      if policyID ≠ "" ∧ policy.name ≠ "" ∧ policy.name ≠ policyID then
        .error "Policy Name in URL and payload do not match"
      else if policy.name = "" then .ok { policy with name := "" }
      else .ok policy

/-- The identifier-consistency step of ACLTokenWrite (acl_endpoint.go
lines 449-453): an empty payload AccessorID adopts the URL token ID; a
nonempty payload AccessorID differing from a nonempty URL ID is a
BadRequest. The result is the AccessorID sent to the store. -/
def aclTokenWriteNormalize (tokenID : String) (accessorID : String) :
    Except String String :=
  if accessorID = "" then .ok tokenID
  else if tokenID ≠ "" ∧ accessorID ≠ tokenID then
    .error "Token Accessor ID in URL and payload do not match"
  else .ok accessorID

/-- The field of the token returned by ACL.TokenRead that
ACLRulesTranslateLegacyToken inspects. -/
structure StoredToken where
  rules : String
  deriving Repr, DecidableEq

/-- The outcome of ACLRulesTranslateLegacyToken, acl_endpoint.go
lines 94-136. -/
inductive TranslateOutcome where
  | badRequest (reason : String)
  | storeErr (err : String)
  | notFound
  | noRulesErr (msg : String)
  | translated (policy : String)
  | translateErr (err : String)
  deriving Repr, DecidableEq

/-- ACLRulesTranslateLegacyToken (acl_endpoint.go lines 94-136): an empty
path token ID is a BadRequest before anything else; readResult stands for
the ACL.TokenRead RPC outcome (error, no token, or a token); a missing
token is NotFound; a token whose Rules field is empty is reported as
having no rules set, without invoking the translator; otherwise the
translator (acl.TranslateLegacyRules) runs on the token rules. -/
def aclRulesTranslateLegacyToken (tokenID : String)
    (readResult : Except String (Option StoredToken))
    (translator : String → Except String String) : TranslateOutcome :=
  if tokenID = "" then .badRequest "Missing token ID"
  else
    match readResult with
    | .error e => .storeErr e
    | .ok none => .notFound
    | .ok (some t) =>
        if t.rules = "" then
          .noRulesErr "The specified token does not have any rules set"
        else
          match translator t.rules with
          | .ok s => .translated s
          | .error e => .translateErr e

/-- The outcome of resolving a user-supplied partial identifier. -/
inductive ResolveResult where
  | resolved (canonical : String)
  | badRequest
  | notFound
  | ambiguous (conflicts : List String)
  deriving Repr, DecidableEq

/-- Character-wise (byte-wise, per spec 4.1) comparison used by the
partial-identifier resolver. -/
def strIsPfxOf (p s : String) : Bool :=
  p.toList.isPrefixOf s.toList

/-- Modelled from the spec: GetTokenIDFromPartial and GetPolicyIDFromPartial
(package command/acl of this repository, not under src/). Spec 4.1: an empty
input is invalid (BadRequest); an exact match takes precedence over other
matches; zero matches is NotFound; a unique match resolves; two or
more matches with no exact match is AmbiguousIdentifier naming the
conflicting identifiers. One function serves tokens and policies,
parameterized only by the scanned collection of canonical identifiers. -/
def getIDFromPartial (p : String) (s : List String) : ResolveResult :=
  if p = "" then .badRequest
  else if s.contains p then .resolved p
  else
    match s.filter (fun x => strIsPfxOf p x) with
    | [] => .notFound
    | [x] => .resolved x
    | x :: y :: rest => .ambiguous (x :: y :: rest)

/-- The outcome of one bootstrap attempt as seen at the store. -/
inductive AttemptOutcome where
  | bootstrapped
  | alreadyDone
  deriving Repr, DecidableEq

/-- Modelled from the spec: the server-side ACL.Bootstrap operation (not
under src/) is a single atomic conditional write against the linearizable
store: create the bootstrap marker and initial token together, only if the
marker does not already exist (spec 4.3). Its effect on the cluster-wide
bootstrap flag: succeed and set the flag when clear, fail as already done
when set. -/
def bootstrapStep (st : Bool) : Bool × AttemptOutcome :=
  if st then (st, .alreadyDone) else (true, .bootstrapped)

/-- Modelled from the spec: N racing bootstrap attempts execute as some
sequence of atomic steps because the store is linearizable (spec 5); this
runs n attempts in order from a given flag state, collecting each attempt
outcome in order. -/
def runAttempts : Nat → Bool → List AttemptOutcome
  | 0, _ => []
  | n + 1, st => (bootstrapStep st).2 :: runAttempts n (bootstrapStep st).1

/-- The bootstrap flag state after n attempts from a given state. -/
def finalState : Nat → Bool → Bool
  | 0, st => st
  | n + 1, st => finalState n (bootstrapStep st).1

theorem mergeNames_nil (L : List ACLTokenPolicyLink) : mergeNames L [] = L :=
  rfl

theorem mergeNames_cons (L : List ACLTokenPolicyLink) (n : String)
    (ns : List String) :
    mergeNames L (n :: ns) =
      mergeNames (if hasName L n then L else L ++ [⟨"", n⟩]) ns :=
  rfl

theorem mergeIDs_nil (L : List ACLTokenPolicyLink) : mergeIDs L [] = L :=
  rfl

theorem mergeIDs_cons (L : List ACLTokenPolicyLink) (i : String)
    (ids : List String) :
    mergeIDs L (i :: ids) =
      mergeIDs (if hasID L i then L else L ++ [⟨i, ""⟩]) ids :=
  rfl

theorem hasName_append (L M : List ACLTokenPolicyLink) (n : String) :
    hasName (L ++ M) n = (hasName L n || hasName M n) := by
  simp [hasName, List.any_append]

theorem hasID_append (L M : List ACLTokenPolicyLink) (i : String) :
    hasID (L ++ M) i = (hasID L i || hasID M i) := by
  simp [hasID, List.any_append]

theorem hasName_mergeNames_mono (ns : List String) :
    ∀ (L : List ACLTokenPolicyLink) (m : String),
      hasName L m = true → hasName (mergeNames L ns) m = true := by
  induction ns with
  | nil => intro L m h; simpa [mergeNames_nil] using h
  | cons n ns ih =>
      intro L m h
      rw [mergeNames_cons]
      cases hc : hasName L n with
      | true => simpa [hc] using ih L m h
      | false =>
          have hstep : hasName (L ++ [⟨"", n⟩]) m = true := by
            rw [hasName_append, h]; rfl
          simpa [hc] using ih _ m hstep

theorem hasID_mergeIDs_mono (ids : List String) :
    ∀ (L : List ACLTokenPolicyLink) (m : String),
      hasID L m = true → hasID (mergeIDs L ids) m = true := by
  induction ids with
  | nil => intro L m h; simpa [mergeIDs_nil] using h
  | cons i ids ih =>
      intro L m h
      rw [mergeIDs_cons]
      cases hc : hasID L i with
      | true => simpa [hc] using ih L m h
      | false =>
          have hstep : hasID (L ++ [⟨i, ""⟩]) m = true := by
            rw [hasID_append, h]; rfl
          simpa [hc] using ih _ m hstep

theorem hasName_mergeIDs_mono (ids : List String) :
    ∀ (L : List ACLTokenPolicyLink) (m : String),
      hasName L m = true → hasName (mergeIDs L ids) m = true := by
  induction ids with
  | nil => intro L m h; simpa [mergeIDs_nil] using h
  | cons i ids ih =>
      intro L m h
      rw [mergeIDs_cons]
      cases hc : hasID L i with
      | true => simpa [hc] using ih L m h
      | false =>
          have hstep : hasName (L ++ [⟨i, ""⟩]) m = true := by
            rw [hasName_append, h]; rfl
          simpa [hc] using ih _ m hstep

theorem hasName_mergeNames_mem (ns : List String) :
    ∀ (L : List ACLTokenPolicyLink) (m : String),
      m ∈ ns → hasName (mergeNames L ns) m = true := by
  induction ns with
  | nil => intro L m h; cases h
  | cons n ns ih =>
      intro L m h
      rw [mergeNames_cons]
      rcases List.mem_cons.mp h with rfl | hm
      · apply hasName_mergeNames_mono
        cases hc : hasName L m with
        | true => simp [hc]
        | false => simp [hc, hasName_append, hasName]
      · exact ih _ m hm

theorem hasID_mergeIDs_mem (ids : List String) :
    ∀ (L : List ACLTokenPolicyLink) (m : String),
      m ∈ ids → hasID (mergeIDs L ids) m = true := by
  induction ids with
  | nil => intro L m h; cases h
  | cons i ids ih =>
      intro L m h
      rw [mergeIDs_cons]
      rcases List.mem_cons.mp h with rfl | hm
      · apply hasID_mergeIDs_mono
        cases hc : hasID L m with
        | true => simp [hc]
        | false => simp [hc, hasID_append, hasID]
      · exact ih _ m hm

theorem mergeNames_eq_self (ns : List String) :
    ∀ (L : List ACLTokenPolicyLink),
      (∀ m ∈ ns, hasName L m = true) → mergeNames L ns = L := by
  induction ns with
  | nil => intro L _; rfl
  | cons n ns ih =>
      intro L h
      rw [mergeNames_cons]
      have hn : hasName L n = true := h n (by simp)
      simp only [hn, if_true]
      exact ih L (fun m hm => h m (by simp [hm]))

theorem mergeIDs_eq_self (ids : List String) :
    ∀ (L : List ACLTokenPolicyLink),
      (∀ m ∈ ids, hasID L m = true) → mergeIDs L ids = L := by
  induction ids with
  | nil => intro L _; rfl
  | cons i ids ih =>
      intro L h
      rw [mergeIDs_cons]
      have hi : hasID L i = true := h i (by simp)
      simp only [hi, if_true]
      exact ih L (fun m hm => h m (by simp [hm]))

theorem mergeNames_eq_append_filter (ns : List String) :
    ∀ (L : List ACLTokenPolicyLink), ns.Nodup →
      mergeNames L ns =
        L ++ (ns.filter (fun n => !hasName L n)).map
          (fun n => (⟨"", n⟩ : ACLTokenPolicyLink)) := by
  induction ns with
  | nil => intro L _; simp [mergeNames_nil]
  | cons n ns ih =>
      intro L hnd
      rw [List.nodup_cons] at hnd
      obtain ⟨hn, hnd⟩ := hnd
      rw [mergeNames_cons]
      cases hc : hasName L n with
      | true =>
          simp only [if_true]
          rw [ih L hnd]
          simp [List.filter_cons, hc]
      | false =>
          simp only [Bool.false_eq_true, if_false]
          rw [ih (L ++ [({ id := "", name := n } : ACLTokenPolicyLink)]) hnd]
          have hpred : ∀ m ∈ ns,
              (!hasName (L ++ [⟨"", n⟩]) m) = (!hasName L m) := by
            intro m hm
            have hne : n ≠ m := fun e => hn (e ▸ hm)
            simp [hasName_append, hasName, hne]
          rw [List.filter_congr hpred]
          simp [List.filter_cons, hc, List.append_assoc]

theorem mergeIDs_eq_append_filter (ids : List String) :
    ∀ (L : List ACLTokenPolicyLink), ids.Nodup →
      mergeIDs L ids =
        L ++ (ids.filter (fun i => !hasID L i)).map
          (fun i => (⟨i, ""⟩ : ACLTokenPolicyLink)) := by
  induction ids with
  | nil => intro L _; simp [mergeIDs_nil]
  | cons i ids ih =>
      intro L hnd
      rw [List.nodup_cons] at hnd
      obtain ⟨hi, hnd⟩ := hnd
      rw [mergeIDs_cons]
      cases hc : hasID L i with
      | true =>
          simp only [if_true]
          rw [ih L hnd]
          simp [List.filter_cons, hc]
      | false =>
          simp only [Bool.false_eq_true, if_false]
          rw [ih (L ++ [({ id := i, name := "" } : ACLTokenPolicyLink)]) hnd]
          have hpred : ∀ m ∈ ids,
              (!hasID (L ++ [⟨i, ""⟩]) m) = (!hasID L m) := by
            intro m hm
            have hne : i ≠ m := fun e => hi (e ▸ hm)
            simp [hasID_append, hasID, hne]
          rw [List.filter_congr hpred]
          simp [List.filter_cons, hc, List.append_assoc]

theorem hasID_nameLinks (xs : List String) (i : String) (h : i ≠ "") :
    hasID (xs.map (fun n => (⟨"", n⟩ : ACLTokenPolicyLink))) i = false := by
  induction xs with
  | nil => rfl
  | cons x xs ih =>
      simp only [List.map_cons, hasID, List.any_cons] at ih ⊢
      rw [Bool.or_eq_false_iff]
      exact ⟨beq_eq_false_iff_ne.mpr (Ne.symm h), ih⟩

/-- Claim C2: for every token and every list of requested policy names
and resolved policy IDs, the replace branch yields exactly the
requested names as Name-links, in caller order, followed by the
requested IDs as ID-links, in caller order; every prior link is
dropped regardless of the prior value. -/
theorem replace_policies_exact (L : List ACLTokenPolicyLink)
    (names ids : List String) :
    replaceReconcile L names ids =
      names.map (fun n => (⟨"", n⟩ : ACLTokenPolicyLink)) ++
        ids.map (fun i => (⟨i, ""⟩ : ACLTokenPolicyLink)) := by
  have step :
      ∀ (xs : List String) (acc : List ACLTokenPolicyLink)
        (mk : String → ACLTokenPolicyLink),
        xs.foldl (fun acc x => acc ++ [mk x]) acc = acc ++ xs.map mk := by
    intro xs
    induction xs with
    | nil => intro acc mk; simp
    | cons x xs ih =>
        intro acc mk
        simp [List.foldl_cons, ih, List.append_assoc]
  simp [replaceReconcile, step]

/-- Claim C10: on a successful run of the CLI token-update command the
token Description is unconditionally overwritten with the -description
flag value, in merge mode as well as in replace mode, while merge mode
recomputes the policies from the existing links; the flag value
defaults to the empty string when omitted. -/
theorem token_update_description_overwrite (token : ACLToken)
    (description : String) (names ids : List String) :
    (updateToken token description true names ids).description =
        description ∧
      (updateToken token description false names ids).description =
        description ∧
      (updateToken token description true names ids).policies =
        mergeReconcile token.policies names ids ∧
      defaultDescription = "" := by
  refine ⟨?_, ?_, ?_, rfl⟩ <;> simp [updateToken]

/-- Claim C1: in merge mode, for distinct requested names, distinct and
nonempty resolved IDs, the new PolicyLinks are the existing links first in
unchanged order, then one Name-link for each requested name no existing
link carries as its Name, then one ID-link for each resolved ID no
existing link carries as its ID; existing links absent from the request
are preserved, and each presence test compares only the same identifier
kind, so an existing Name-link does not suppress an ID-link to the same
policy. -/
theorem merge_policies_spec (L : List ACLTokenPolicyLink)
    (names ids : List String) (h1 : names.Nodup) (h2 : ids.Nodup)
    (h3 : "" ∉ ids) :
    mergeReconcile L names ids =
      L ++ (names.filter (fun n => !hasName L n)).map
          (fun n => (⟨"", n⟩ : ACLTokenPolicyLink)) ++
        (ids.filter (fun i => !hasID L i)).map
          (fun i => (⟨i, ""⟩ : ACLTokenPolicyLink)) := by
  unfold mergeReconcile
  rw [mergeNames_eq_append_filter names L h1,
    mergeIDs_eq_append_filter ids _ h2]
  have hpred : ∀ i ∈ ids,
      (!hasID (L ++ (names.filter (fun n => !hasName L n)).map
        (fun n => (⟨"", n⟩ : ACLTokenPolicyLink))) i) = (!hasID L i) := by
    intro i hi
    have hne : i ≠ "" := fun e => h3 (e ▸ hi)
    rw [hasID_append, hasID_nameLinks _ i hne, Bool.or_false]
  rw [List.filter_congr hpred]

/-- Witness for C1 at the scenario of spec section 8: a token linked to
read-only by Name, a merge request for names read-only and write and for
the resolved ID pid1. -/
theorem merge_policies_spec_witness :
    mergeReconcile [⟨"", "read-only"⟩] ["read-only", "write"] ["pid1"] =
      [⟨"", "read-only"⟩, ⟨"", "write"⟩, ⟨"pid1", ""⟩] := by
  rw [merge_policies_spec [⟨"", "read-only"⟩] ["read-only", "write"]
    ["pid1"] (by decide) (by decide) (by decide)]
  decide

/-- Claim C3: merge reconciliation is idempotent: applying the merge with
the same requested names and IDs twice yields exactly the links of
applying it once, for every starting list and every request. -/
theorem merge_policies_idempotent (L : List ACLTokenPolicyLink)
    (names ids : List String) :
    mergeReconcile (mergeReconcile L names ids) names ids =
      mergeReconcile L names ids := by
  have hnames : ∀ m ∈ names, hasName (mergeReconcile L names ids) m = true := by
    intro m hm
    exact hasName_mergeIDs_mono ids _ m (hasName_mergeNames_mem names L m hm)
  have hids : ∀ i ∈ ids, hasID (mergeReconcile L names ids) i = true := by
    intro i hi
    exact hasID_mergeIDs_mem ids _ i hi
  show mergeIDs (mergeNames (mergeReconcile L names ids) names) ids =
    mergeReconcile L names ids
  rw [mergeNames_eq_self names _ hnames, mergeIDs_eq_self ids _ hids]

/-- Claim C4, evaluation at the failing input: a policy write addressed
by Name with URL name example-name and a payload carrying no Name leaves
the payload Name empty instead of adopting the URL name, while the
parallel branch addressed by ID does adopt the URL ID into an empty
payload ID. -/
theorem policy_name_url_not_adopted :
    aclPolicyWriteNormalize "example-name" ACLPolicyIDType.name
        { id := "", name := "" } =
      Except.ok { id := "", name := "" } ∧
    aclPolicyWriteNormalize "example-id" ACLPolicyIDType.id
        { id := "", name := "" } =
      Except.ok { id := "example-id", name := "" } :=
  ⟨rfl, rfl⟩

/-- Claim C5: with ACLs enabled, a Bootstrap store error whose text
contains the already-bootstrapped marker becomes a 403 permission-denied
response with no error propagated; every other store error is passed
through unchanged as an opaque operational failure. -/
theorem bootstrap_error_classification (marker err : String) :
    (strContains err marker = true →
      aclBootstrap true marker (Except.error err) =
        .forbidden ⟨statusForbidden, permissionDeniedMsg err⟩) ∧
    (strContains err marker = false →
      aclBootstrap true marker (Except.error err) = .operationalErr err) := by
  constructor <;> intro h <;>
    simp [aclBootstrap, checkACLDisabled, h]

/-- Witness for C5: a concrete marker hit and a concrete marker miss. -/
theorem bootstrap_error_classification_witness :
    aclBootstrap true "ACL bootstrap no longer allowed"
        (Except.error "rpc: ACL bootstrap no longer allowed") =
      .forbidden ⟨statusForbidden,
        permissionDeniedMsg "rpc: ACL bootstrap no longer allowed"⟩ ∧
    aclBootstrap true "ACL bootstrap no longer allowed"
        (Except.error "leader unreachable") =
      .operationalErr "leader unreachable" :=
  ⟨(bootstrap_error_classification "ACL bootstrap no longer allowed"
      "rpc: ACL bootstrap no longer allowed").1 (by decide),
    (bootstrap_error_classification "ACL bootstrap no longer allowed"
      "leader unreachable").2 (by decide)⟩

/-- Counterexample to claim C6 as stated: with ACLs disabled the guard
writes status 401 (http.StatusUnauthorized) with body
"ACL support disabled", which is not the Forbidden status 403. -/
theorem acl_disabled_not_forbidden :
    checkACLDisabled false =
      some ⟨statusUnauthorized, "ACL support disabled"⟩ ∧
    (checkACLDisabled false).map HTTPResponse.status ≠
      some statusForbidden := by
  decide

/-- Claim C6 as amended: when the ACL subsystem is disabled every guarded
endpoint rejects the request by writing 401 Unauthorized with body
"ACL support disabled" and makes no store call (the outcome is the same
for every store result); when ACLs are enabled the guard lets the
handler continue. -/
theorem acl_disabled_unauthorized (marker : String)
    (store : Except String ACLToken) :
    aclBootstrap false marker store =
      .disabled ⟨statusUnauthorized, "ACL support disabled"⟩ ∧
    checkACLDisabled true = none :=
  ⟨rfl, rfl⟩

/-- Claim C7: for a non-empty partial identifier p and a collection s of
canonical identifiers, resolution returns the exact match whenever p
equals an element of s, even if p is also a proper front of others;
otherwise it returns the unique element having p as a front when exactly
one exists, NotFound when none exists, and AmbiguousIdentifier naming the
conflicting identifiers when two or more exist; one function serves
tokens and policies, parameterized only by the scanned collection. -/
theorem get_id_from_partial_spec (p : String) (s : List String)
    (hp : p ≠ "") :
    (p ∈ s → getIDFromPartial p s = .resolved p) ∧
    (p ∉ s → s.filter (fun x => strIsPfxOf p x) = [] →
      getIDFromPartial p s = .notFound) ∧
    (∀ x, p ∉ s → s.filter (fun z => strIsPfxOf p z) = [x] →
      getIDFromPartial p s = .resolved x) ∧
    (∀ x y rest, p ∉ s →
      s.filter (fun z => strIsPfxOf p z) = x :: y :: rest →
      getIDFromPartial p s = .ambiguous (x :: y :: rest)) := by
  refine ⟨?_, ?_, ?_, ?_⟩
  · intro hmem
    have hc : s.contains p = true := by simp [List.contains, hmem]
    unfold getIDFromPartial
    rw [if_neg hp, if_pos hc]
  · intro hns hf
    have hc : s.contains p = false := by simp [List.contains, hns]
    unfold getIDFromPartial
    rw [if_neg hp, if_neg (by simpa [List.contains] using hns), hf]
  · intro x hns hf
    have hc : s.contains p = false := by simp [List.contains, hns]
    unfold getIDFromPartial
    rw [if_neg hp, if_neg (by simpa [List.contains] using hns), hf]
  · intro x y rest hns hf
    have hc : s.contains p = false := by simp [List.contains, hns]
    unfold getIDFromPartial
    rw [if_neg hp, if_neg (by simpa [List.contains] using hns), hf]

/-- Witness for C7 at the scenarios of spec section 8: prefix aaaa over
two tokens is ambiguous, prefix aaaa1 resolves uniquely, and an exact
match wins even when it fronts another identifier. -/
theorem get_id_from_partial_spec_witness :
    getIDFromPartial "aaaa1" ["aaaa1111", "aaaa2222"] =
      .resolved "aaaa1111" ∧
    getIDFromPartial "aaaa" ["aaaa1111", "aaaa2222"] =
      .ambiguous ["aaaa1111", "aaaa2222"] ∧
    getIDFromPartial "aaaa" ["aaaa", "aaaa1111"] = .resolved "aaaa" := by
  refine ⟨?_, ?_, ?_⟩
  · exact (get_id_from_partial_spec "aaaa1" ["aaaa1111", "aaaa2222"]
      (by decide)).2.2.1 "aaaa1111" (by decide) (by decide)
  · exact (get_id_from_partial_spec "aaaa" ["aaaa1111", "aaaa2222"]
      (by decide)).2.2.2 "aaaa1111" "aaaa2222" [] (by decide) (by decide)
  · exact (get_id_from_partial_spec "aaaa" ["aaaa", "aaaa1111"]
      (by decide)).1 (by decide)

/-- Claim C8: translating the embedded legacy rules of a token fails when
there is nothing to translate: an empty path token ID is a BadRequest
whatever the store would answer, a missing token is NotFound, and an
existing token with empty Rules is reported as having no rules set with
the translator never invoked (the outcome does not depend on the
translator). -/
theorem translate_legacy_token_errs
    (rd : Except String (Option StoredToken))
    (tr trAlt : String → Except String String) (tid : String) :
    (aclRulesTranslateLegacyToken "" rd tr =
      .badRequest "Missing token ID") ∧
    (tid ≠ "" →
      aclRulesTranslateLegacyToken tid (Except.ok none) tr = .notFound) ∧
    (tid ≠ "" →
      aclRulesTranslateLegacyToken tid (Except.ok (some ⟨""⟩)) tr =
        .noRulesErr "The specified token does not have any rules set" ∧
      aclRulesTranslateLegacyToken tid (Except.ok (some ⟨""⟩)) tr =
        aclRulesTranslateLegacyToken tid (Except.ok (some ⟨""⟩)) trAlt) := by
  refine ⟨rfl, ?_, ?_⟩ <;> intro h <;>
    simp [aclRulesTranslateLegacyToken, h]

/-- Witness for C8 at concrete inputs, with an identity translator. -/
theorem translate_legacy_token_errs_witness :
    aclRulesTranslateLegacyToken "" (Except.ok none)
        (fun r => Except.ok r) = .badRequest "Missing token ID" ∧
    aclRulesTranslateLegacyToken "tok1" (Except.ok none)
        (fun r => Except.ok r) = .notFound ∧
    aclRulesTranslateLegacyToken "tok1" (Except.ok (some ⟨""⟩))
        (fun r => Except.ok r) =
      .noRulesErr "The specified token does not have any rules set" :=
  ⟨(translate_legacy_token_errs (Except.ok none) (fun r => Except.ok r)
      (fun r => Except.error r) "tok1").1,
    (translate_legacy_token_errs (Except.ok none) (fun r => Except.ok r)
      (fun r => Except.error r) "tok1").2.1 (by decide),
    ((translate_legacy_token_errs (Except.ok (some ⟨""⟩))
      (fun r => Except.ok r) (fun r => Except.error r) "tok1").2.2
      (by decide)).1⟩

theorem runAttempts_true (n : Nat) :
    runAttempts n true = List.replicate n AttemptOutcome.alreadyDone := by
  induction n with
  | zero => rfl
  | succ n ih => simp [runAttempts, bootstrapStep, ih, List.replicate_succ]

theorem finalState_true (n : Nat) : finalState n true = true := by
  induction n with
  | zero => rfl
  | succ n ih => simpa [finalState, bootstrapStep] using ih

/-- Claim C9: with the store bootstrap modelled as an atomic conditional
write and n racing attempts linearized into a sequence, exactly one
attempt from a fresh cluster succeeds, the other n - 1 fail as already
done, and the bootstrap flag ends set. -/
theorem bootstrap_exactly_once (n : Nat) (h : 1 ≤ n) :
    (runAttempts n false).count AttemptOutcome.bootstrapped = 1 ∧
    (runAttempts n false).count AttemptOutcome.alreadyDone = n - 1 ∧
    finalState n false = true := by
  obtain ⟨m, rfl⟩ : ∃ m, n = m + 1 :=
    ⟨n - 1, (Nat.succ_pred_eq_of_pos h).symm⟩
  have hrun : runAttempts (m + 1) false =
      AttemptOutcome.bootstrapped ::
        List.replicate m AttemptOutcome.alreadyDone := by
    simp [runAttempts, bootstrapStep, runAttempts_true]
  refine ⟨?_, ?_, ?_⟩
  · rw [hrun]
    simp [List.count_cons, List.count_replicate]
  · rw [hrun]
    simp [List.count_cons, List.count_replicate]
  · simpa [finalState, bootstrapStep] using finalState_true m

/-- Witness for C9 at three attempts. -/
theorem bootstrap_exactly_once_witness :
    (runAttempts 3 false).count AttemptOutcome.bootstrapped = 1 ∧
    (runAttempts 3 false).count AttemptOutcome.alreadyDone = 2 ∧
    finalState 3 false = true :=
  bootstrap_exactly_once 3 (by decide)

end ConsulACL
